import Mathlib

/-!
# Verification of the RAGMLCore documentation crawler

Shallow embedding of `src/Docs/fetch_module_docs.py` (the crawl loop
`fetch_module`) and `src/Docs/_populate_essentials.py` (the file-sync helper
`copy_file`), together with proofs about them.

Python strings are embedded as Lean `String`; the handful of Python string
operations the code uses (`startswith`, `strip("/")`, `replace("/", "_")`,
slicing `[:-5]`) are defined below on the underlying character list, mirroring
Python's character-level semantics.

External effects are made explicit:
* the remote documentation service is a finite association list from topic
  paths to fetch outcomes (a path absent from the list responds 404, the
  HTTP not-found status);
* local file storage is an oracle `String → Bool` saying whether writing a
  given file name succeeds;
* each loop iteration threads an explicit `CrawlState` recording the frontier
  queue, the visited set, the fetch attempts, the reported failures and the
  files written.

The loop is written with explicit fuel; running out of fuel is a separate
result constructor, and termination theorems exhibit sufficient fuel.
-/

namespace RAGMLCore

/-- A JSON value sitting in a reference's `url` field.  The crawler only ever
asks whether the value is a string (and, via Python's `or ""`, whether a
non-string value is truthy), so the embedding records exactly that. -/
inductive UrlVal where
  | str (s : String)
  | nonStr (truthy : Bool)
deriving DecidableEq, Repr

/-- One value of the document's `references` mapping: either a JSON object
(possibly carrying a `url` field) or some non-object value, which the code
skips via its `isinstance(ref, dict)` check. -/
inductive RefVal where
  | dict (url : Option UrlVal)
  | nonDict
deriving DecidableEq, Repr

/-- The part of a fetched JSON document the crawler reads: the values of its
optional `references` mapping, in iteration order (`data.get("references", {})`
followed by `.values()`).  An absent mapping is the empty list. -/
structure Doc where
  references : List RefVal
deriving DecidableEq, Repr

/-- Outcome of one remote fetch of `BASE_URL/<path>.json`:
either a parsed document, an `urllib.error.HTTPError` with its status code, or
any other exception (network failure, malformed JSON, ...) caught by the
code's `except Exception` arm. -/
inductive FetchOutcome where
  | success (d : Doc)
  | httpError (code : Nat)
  | otherError (msg : String)
deriving DecidableEq, Repr

/-- The crawl's external collaborators: the remote service as a finite table
of responses (absent paths answer HTTP 404), and the local store as an oracle
deciding whether the write of a given file name succeeds. -/
structure World where
  fetch : List (String × FetchOutcome)
  store : String → Bool

/-- Look up the service's response for a topic path. -/
def lookupFetch (w : World) (p : String) : FetchOutcome :=
  match w.fetch.find? (fun e => e.1 == p) with
  | some e => e.2
  | none => .httpError 404

/-- Python `s.startswith(pre)`. -/
def pyStartsWith (s pre : String) : Bool :=
  pre.data.isPrefixOf s.data

/-- Python `s.strip("/")`: remove every leading and trailing `'/'`. -/
def pyStrip (s : String) : String :=
  ⟨List.rdropWhile (· = '/') (s.data.dropWhile (· = '/'))⟩

/-- Python `path.replace("/", "_")` for the single characters used by the
code: replace every occurrence of `'/'` by `'_'`. -/
def pyReplaceSlash (s : String) : String :=
  ⟨s.data.map (fun c => if c = '/' then '_' else c)⟩

/-- The stored file name for a topic path:
`path.replace("/", "_") + ".json"`. -/
def docFileName (p : String) : String :=
  pyReplaceSlash p ++ ".json"

/-- The module-level constant `BASE_URL` of the source. -/
def BASE_URL : String := "https://developer.apple.com/tutorials/data"

/-- The url the loop builds for a topic path:
`f"{BASE_URL}/{path}.json"`. -/
def fetchUrl (p : String) : String :=
  BASE_URL ++ "/" ++ p ++ ".json"

/-- The trace line the loop prints for a failed fetch of `path`.  The
`HTTPError` arm prints `f"HTTPError {err.code} {url}"` — the url contains
the path — while the generic `except Exception` arm prints only
`f"Error {exc}"`, with no mention of the path.  (A successful fetch prints
`Saved`, not a failure line; that arm is unreachable here.) -/
def failureReportLine (path : String) : FetchOutcome → String
  | .httpError c => "HTTPError " ++ toString c ++ " " ++ fetchUrl path
  | .otherError msg => "Error " ++ msg
  | .success _ => ""

/-- The string value the loop body computes for one reference:
`ref.get("url") or ""` followed by the `isinstance(ref_url, str)` test.
`none` means the reference is skipped (a non-dict value, or a truthy
non-string `url`); a missing or falsy `url` collapses to `""`. -/
def refUrlString (r : RefVal) : Option String :=
  match r with
  | .nonDict => none
  | .dict none => some ""
  | .dict (some (.str s)) => some s
  | .dict (some (.nonStr truthy)) => if truthy then none else some ""

/-- The in-scope reference paths a successfully fetched document contributes
to the frontier, in order: for each reference value whose url-string starts
with `"/documentation/" ++ module`, the url stripped of leading and trailing
slashes (`ref_url.strip("/")`). -/
def extractRefs (module : String) (d : Doc) : List String :=
  d.references.filterMap (fun r =>
    match refUrlString r with
    | none => none
    | some s =>
      if pyStartsWith s ("/documentation/" ++ module) then
        some (pyStrip s)
      else
        none)

/-- Python test `limit is not None and len(visited) > limit` (the limit is a
Python `int`, so it is embedded as an integer). -/
def limitExceeded (limit : Option Int) (n : Nat) : Bool :=
  match limit with
  | none => false
  | some l => decide (l < (n : Int))

/-- The crawl loop's explicit state: the frontier queue, the visited set (as
its insertion-ordered list of members), the fetch attempts in order, the
fetch-failure events, the files written (name and content), and whether the
visit limit fired.  `failures` is the execution trace of the two `except`
arms: the loop was at `path` when it caught that outcome.  The line actually
printed for such an event is `failureReportLine`, which for the generic
`except Exception` arm does not include the path. -/
structure CrawlState where
  queue : List String
  visited : List String
  attempted : List String
  failures : List (String × FetchOutcome)
  files : List (String × Doc)
  limitHit : Bool
deriving DecidableEq, Repr

/-- How a crawl run ends: `ok` when the `while` loop exits (empty frontier or
limit break), `aborted` when the unguarded file write raises — the Python
`open`/`json.dump` sits outside the `try`, so a storage error propagates out
of `fetch_module` — and `outOfFuel` when the fuel bound is reached first. -/
inductive RunResult where
  | ok (s : CrawlState)
  | aborted (s : CrawlState) (fileName : String)
  | outOfFuel (s : CrawlState)
deriving DecidableEq, Repr

/-- The state a run ends in, whichever way it ends. -/
def RunResult.state : RunResult → CrawlState
  | .ok s => s
  | .aborted s _ => s
  | .outOfFuel s => s

/-- One-for-one embedding of the `while queue:` loop of `fetch_module`:

* pop the head of the frontier; if already visited, continue;
* add it to the visited set, then break if the configured limit is exceeded;
* fetch it; an `HTTPError` or any other exception makes the loop print one
  line — `failureReportLine` — and continue with nothing enqueued (the
  `failures` trace records at which path each arm fired);
* on success, write the file (the write is unguarded: a storage failure
  aborts the whole run) and append every in-scope reference to the tail of
  the frontier, with no visited-check at enqueue time. -/
def crawlLoop (w : World) (module : String) (limit : Option Int) :
    Nat → CrawlState → RunResult
  | 0, st => .outOfFuel st
  | fuel + 1, st =>
    match st.queue with
    | [] => .ok st
    | path :: rest =>
      if path ∈ st.visited then
        crawlLoop w module limit fuel { st with queue := rest }
      else
        let st1 := { st with queue := rest, visited := st.visited ++ [path] }
        if limitExceeded limit st1.visited.length then
          .ok { st1 with limitHit := true }
        else
          match lookupFetch w path with
          | .success d =>
            let name := docFileName path
            let st2 := { st1 with attempted := st1.attempted ++ [path] }
            if w.store name then
              crawlLoop w module limit fuel
                { st2 with
                  files := st2.files ++ [(name, d)],
                  queue := st2.queue ++ extractRefs module d }
            else
              .aborted st2 name
          | .httpError c =>
            crawlLoop w module limit fuel
              { st1 with
                attempted := st1.attempted ++ [path],
                failures := st1.failures ++ [(path, .httpError c)] }
          | .otherError m =>
            crawlLoop w module limit fuel
              { st1 with
                attempted := st1.attempted ++ [path],
                failures := st1.failures ++ [(path, .otherError m)] }

/-- The initial state: the frontier holds exactly `documentation/<module>`,
everything else is empty. -/
def initState (module : String) : CrawlState :=
  { queue := ["documentation/" ++ module]
    visited := []
    attempted := []
    failures := []
    files := []
    limitHit := false }

/-- A whole run of `fetch_module module dest limit` with the given fuel. -/
def fetchModule (w : World) (module : String) (limit : Option Int)
    (fuel : Nat) : RunResult :=
  crawlLoop w module limit fuel (initState module)

/-- The value `fetch_module` returns to its caller.  The Python definition is
annotated `-> None` and has no `return` statement, so every call evaluates to
`None`; it is embedded as `none` in the type of the count pair the
specification's contract promises. -/
def fetchModuleReturn (_w : World) (_module : String) (_limit : Option Int) :
    Option (Nat × Nat) :=
  none

/-! ## The file-sync helper `copy_file` of `_populate_essentials.py`

The raw directory is embedded as `Option (List String)`: `none` when the
directory does not exist (so `os.listdir` raises `FileNotFoundError`), and
`some names` for its list of file names in listing order.  The destination
directory plays no role in the returned value. -/

/-- Python `target_name[:-5]`: drop the last five characters (everything when
the name has at most five). -/
def pyDropLast5 (s : String) : String :=
  ⟨s.data.take (s.data.length - 5)⟩

/-- The fallback candidates: the names in the raw directory that start with
`target_name[:-5]`. -/
def syncCandidates (names : List String) (targetName : String) : List String :=
  names.filter (fun n => pyStartsWith n (pyDropLast5 targetName))

/-- One-for-one embedding of `copy_file(raw_dir, dest_dir, target_name)`:

* if the exact target name exists in the raw directory, copy it and return
  `(target_name, None)`;
* otherwise list the raw directory (a missing directory raises
  `FileNotFoundError`, caught and turned into `(None, target_name)`), filter
  the names starting with `target_name[:-5]`, and if any exist sort them by
  length (Python's stable sort) and copy the first, returning it;
* otherwise return `(None, target_name)`.

The first component of the result is exactly the name copied (when any). -/
def copy_file (rawDir : Option (List String)) (targetName : String) :
    Option String × Option String :=
  match rawDir with
  | some names =>
    if targetName ∈ names then
      (some targetName, none)
    else
      match syncCandidates names targetName with
      | [] => (none, some targetName)
      | c :: cs =>
        (some (((c :: cs).mergeSort
          (fun a b => decide (a.length ≤ b.length))).headD c), none)
  | none => (none, some targetName)

/-! ## Helper lemmas about the embedded string operations -/

theorem pyStartsWith_iff {s pre : String} :
    pyStartsWith s pre = true ↔ pre.data <+: s.data := by
  simp [pyStartsWith, List.isPrefixOf_iff_prefix]

theorem slashPrefix_data (m : String) :
    ("/documentation/" ++ m).data = '/' :: ("documentation/" ++ m).data := by
  simp [String.data_append]

theorem docPrefix_data (m : String) :
    ("documentation/" ++ m).data = 'd' :: ("ocumentation/" ++ m).data := by
  simp [String.data_append]

/-- Removing a maximal trailing run of a character from `P ++ r` does not eat
into `P` when `P` does not end with that character. -/
theorem rdropWhile_append_of_getLast {P r : List Char} {c : Char}
    (hne : P ≠ []) (hlast : ∀ h : P ≠ [], P.getLast h ≠ c) :
    List.rdropWhile (· = c) (P ++ r) = P ++ List.rdropWhile (· = c) r := by
  induction r using List.reverseRecOn with
  | nil =>
    rw [List.append_nil, List.rdropWhile_nil, List.append_nil]
    rw [List.rdropWhile_eq_self_iff]
    intro h
    have := hlast hne
    simpa [List.getLast_append] using this
  | append_singleton r' x ih =>
    by_cases hx : x = c
    · rw [← List.append_assoc, List.rdropWhile_concat_pos _ _ _ (by simpa using hx),
        List.rdropWhile_concat_pos _ _ _ (by simpa using hx), ih]
    · rw [← List.append_assoc, List.rdropWhile_concat_neg _ _ _ (by simpa using hx),
        List.rdropWhile_concat_neg _ _ _ (by simpa using hx), List.append_assoc]

/-- Stripping slashes from a url that starts with `"/documentation/" ++ m`
yields a path that starts with `"documentation/" ++ m`, provided that prefix
does not itself end in a slash (i.e. `m` is nonempty and does not end in
`'/'`). -/
theorem pyStrip_startsWith {m u : String}
    (hm : ∀ h : ("documentation/" ++ m).data ≠ [],
      ("documentation/" ++ m).data.getLast h ≠ '/')
    (hu : pyStartsWith u ("/documentation/" ++ m) = true) :
    pyStartsWith (pyStrip u) ("documentation/" ++ m) = true := by
  rw [pyStartsWith_iff] at hu ⊢
  rw [slashPrefix_data] at hu
  obtain ⟨r, hr⟩ := hu
  set P := ("documentation/" ++ m).data with hP
  have hPne : P ≠ [] := by rw [hP, docPrefix_data]; simp
  have hPhead : P = 'd' :: ("ocumentation/" ++ m).data := by
    rw [hP, docPrefix_data]
  show P <+: (pyStrip u).data
  have hdata : (pyStrip u).data =
      List.rdropWhile (· = '/') (u.data.dropWhile (· = '/')) := rfl
  have hdrop : u.data.dropWhile (· = '/') = P ++ r := by
    rw [← hr]
    show ((('/' :: P) ++ r).dropWhile (· = '/')) = P ++ r
    rw [List.cons_append, List.dropWhile_cons_of_pos (by simp)]
    rw [hPhead, List.cons_append, List.dropWhile_cons_of_neg (by simp)]
  rw [hdata, hdrop, rdropWhile_append_of_getLast hPne hm]
  exact ⟨_, rfl⟩

/-- Every path `extractRefs` produces starts with `"documentation/" ++ m`,
provided that prefix does not end in a slash. -/
theorem extractRefs_startsWith {m : String} {d : Doc} {q : String}
    (hm : ∀ h : ("documentation/" ++ m).data ≠ [],
      ("documentation/" ++ m).data.getLast h ≠ '/')
    (hq : q ∈ extractRefs m d) :
    pyStartsWith q ("documentation/" ++ m) = true := by
  simp only [extractRefs, List.mem_filterMap] at hq
  obtain ⟨r, _, hr⟩ := hq
  cases hru : refUrlString r with
  | none => rw [hru] at hr; simp at hr
  | some s =>
    rw [hru] at hr
    simp only at hr
    by_cases hs : pyStartsWith s ("/documentation/" ++ m) = true
    · rw [if_pos hs] at hr
      obtain rfl : pyStrip s = q := by simpa using hr
      exact pyStrip_startsWith hm hs
    · rw [if_neg hs] at hr
      simp at hr

/-! ## Generic invariants of the crawl loop

A predicate closed under each of the loop's five state transitions holds of
the final state, however the run ends. -/

theorem crawlLoop_state_inv (w : World) (module : String) (limit : Option Int)
    (P : CrawlState → Prop)
    (hskip : ∀ st p rest, st.queue = p :: rest → p ∈ st.visited → P st →
      P { st with queue := rest })
    (hlimit : ∀ st p rest, st.queue = p :: rest → p ∉ st.visited →
      limitExceeded limit (st.visited ++ [p]).length = true → P st →
      P { st with queue := rest, visited := st.visited ++ [p],
                  limitHit := true })
    (hsucc : ∀ st p rest d, st.queue = p :: rest → p ∉ st.visited →
      limitExceeded limit (st.visited ++ [p]).length = false →
      lookupFetch w p = .success d → P st →
      P { st with queue := rest ++ extractRefs module d,
                  visited := st.visited ++ [p],
                  attempted := st.attempted ++ [p],
                  files := st.files ++ [(docFileName p, d)] })
    (habort : ∀ st p rest d, st.queue = p :: rest → p ∉ st.visited →
      limitExceeded limit (st.visited ++ [p]).length = false →
      lookupFetch w p = .success d → w.store (docFileName p) = false → P st →
      P { st with queue := rest, visited := st.visited ++ [p],
                  attempted := st.attempted ++ [p] })
    (hfail : ∀ st p rest e, st.queue = p :: rest → p ∉ st.visited →
      limitExceeded limit (st.visited ++ [p]).length = false →
      lookupFetch w p = e → (∀ d, e ≠ .success d) → P st →
      P { st with queue := rest, visited := st.visited ++ [p],
                  attempted := st.attempted ++ [p],
                  failures := st.failures ++ [(p, e)] }) :
    ∀ fuel st, P st → P (crawlLoop w module limit fuel st).state := by
  intro fuel
  induction fuel with
  | zero =>
    intro st h
    simpa [crawlLoop, RunResult.state] using h
  | succ n ih =>
    intro st h
    rw [crawlLoop]
    cases hq : st.queue with
    | nil => simpa [RunResult.state] using h
    | cons p rest =>
      by_cases hv : p ∈ st.visited
      · simp only [if_pos hv]
        exact ih _ (hskip st p rest hq hv h)
      · simp only [if_neg hv]
        cases hl : limitExceeded limit (st.visited ++ [p]).length with
        | true =>
          simp only [hl, if_true, RunResult.state]
          exact hlimit st p rest hq hv hl h
        | false =>
          simp only [Bool.false_eq_true, if_false]
          cases hf : lookupFetch w p with
          | success d =>
            cases hs : w.store (docFileName p) with
            | true =>
              simp only [hs, if_true]
              exact ih _ (hsucc st p rest d hq hv hl hf h)
            | false =>
              simp only [hs, RunResult.state]
              exact habort st p rest d hq hv hl hf hs h
          | httpError c =>
            exact ih _ (hfail st p rest (.httpError c) hq hv hl hf (by intro d hd; cases hd) h)
          | otherError msg =>
            exact ih _ (hfail st p rest (.otherError msg) hq hv hl hf (by intro d hd; cases hd) h)

/-- Variant of `crawlLoop_state_inv` for runs ending in `ok`: the abort branch
is exempt, so the invariant may fail on abort states. -/
theorem crawlLoop_ok_inv (w : World) (module : String) (limit : Option Int)
    (P : CrawlState → Prop)
    (hskip : ∀ st p rest, st.queue = p :: rest → p ∈ st.visited → P st →
      P { st with queue := rest })
    (hlimit : ∀ st p rest, st.queue = p :: rest → p ∉ st.visited →
      limitExceeded limit (st.visited ++ [p]).length = true → P st →
      P { st with queue := rest, visited := st.visited ++ [p],
                  limitHit := true })
    (hsucc : ∀ st p rest d, st.queue = p :: rest → p ∉ st.visited →
      limitExceeded limit (st.visited ++ [p]).length = false →
      lookupFetch w p = .success d → P st →
      P { st with queue := rest ++ extractRefs module d,
                  visited := st.visited ++ [p],
                  attempted := st.attempted ++ [p],
                  files := st.files ++ [(docFileName p, d)] })
    (hfail : ∀ st p rest e, st.queue = p :: rest → p ∉ st.visited →
      limitExceeded limit (st.visited ++ [p]).length = false →
      lookupFetch w p = e → (∀ d, e ≠ .success d) → P st →
      P { st with queue := rest, visited := st.visited ++ [p],
                  attempted := st.attempted ++ [p],
                  failures := st.failures ++ [(p, e)] }) :
    ∀ fuel st s, P st → crawlLoop w module limit fuel st = .ok s → P s := by
  intro fuel
  induction fuel with
  | zero =>
    intro st s _ heq
    rw [crawlLoop] at heq
    cases heq
  | succ n ih =>
    intro st s h
    rw [crawlLoop]
    cases hq : st.queue with
    | nil =>
      intro heq
      cases heq
      exact h
    | cons p rest =>
      by_cases hv : p ∈ st.visited
      · simp only [if_pos hv]
        exact ih _ _ (hskip st p rest hq hv h)
      · simp only [if_neg hv]
        cases hl : limitExceeded limit (st.visited ++ [p]).length with
        | true =>
          simp only [hl, if_true]
          intro heq
          cases heq
          exact hlimit st p rest hq hv hl h
        | false =>
          simp only [Bool.false_eq_true, if_false]
          cases hf : lookupFetch w p with
          | success d =>
            cases hs : w.store (docFileName p) with
            | true =>
              simp only [hs, if_true]
              exact ih _ _ (hsucc st p rest d hq hv hl hf h)
            | false =>
              simp only [hs]
              intro heq
              cases heq
          | httpError c =>
            exact ih _ _ (hfail st p rest (.httpError c) hq hv hl hf (by intro d hd; cases hd) h)
          | otherError msg =>
            exact ih _ _ (hfail st p rest (.otherError msg) hq hv hl hf (by intro d hd; cases hd) h)

/-! ## The master state invariant -/

/-- Facts that hold of every reachable crawl state: the visited list is
duplicate-free; every attempted path was visited; no path is attempted twice;
every recorded failure carries an attempted path together with the service's
actual (non-success) response for it; and every written file belongs to an
attempted path whose fetch succeeded with that content, under the derived
file name. -/
def StateInv (w : World) (st : CrawlState) : Prop :=
  st.visited.Nodup ∧
  (∀ p ∈ st.attempted, p ∈ st.visited) ∧
  st.attempted.Nodup ∧
  (∀ pr ∈ st.failures, pr.1 ∈ st.attempted ∧ lookupFetch w pr.1 = pr.2 ∧
    ∀ d, pr.2 ≠ FetchOutcome.success d) ∧
  (∀ nd ∈ st.files, ∃ p, p ∈ st.attempted ∧
    lookupFetch w p = FetchOutcome.success nd.2 ∧ nd.1 = docFileName p)

theorem stateInv_init (w : World) (module : String) :
    StateInv w (initState module) := by
  simp [StateInv, initState]

theorem nodup_append_single {α : Type} {l : List α} {a : α}
    (h : l.Nodup) (ha : a ∉ l) : (l ++ [a]).Nodup := by
  rw [List.nodup_append]
  refine ⟨h, List.nodup_singleton a, ?_⟩
  intro x hx hx1
  rw [List.mem_singleton] at hx1
  exact ha (hx1 ▸ hx)

theorem stateInv_visit {w : World} {st : CrawlState} {p : String}
    (hv : p ∉ st.visited) (h : StateInv w st) :
    StateInv w { st with visited := st.visited ++ [p],
                         attempted := st.attempted ++ [p] } := by
  obtain ⟨h1, h2, h3, h4, h5⟩ := h
  refine ⟨?_, ?_, ?_, ?_, ?_⟩
  · exact nodup_append_single h1 hv
  · intro q hq
    rcases List.mem_append.1 hq with hq | hq
    · exact List.mem_append_left _ (h2 q hq)
    · exact List.mem_append_right _ hq
  · exact nodup_append_single h3 (fun hp => hv (h2 p hp))
  · intro pr hpr
    obtain ⟨ha, hl, hns⟩ := h4 pr hpr
    exact ⟨List.mem_append_left _ ha, hl, hns⟩
  · intro nd hnd
    obtain ⟨q, hq, hl, hn⟩ := h5 nd hnd
    exact ⟨q, List.mem_append_left _ hq, hl, hn⟩

theorem stateInv_run (w : World) (module : String) (limit : Option Int)
    (fuel : Nat) :
    StateInv w (fetchModule w module limit fuel).state := by
  refine crawlLoop_state_inv w module limit (StateInv w)
    ?_ ?_ ?_ ?_ ?_ fuel _ (stateInv_init w module)
  · intro st p rest _ _ h
    exact h
  · intro st p rest _ hv _ h
    obtain ⟨h1, h2, h3, h4, h5⟩ := h
    refine ⟨nodup_append_single h1 hv, ?_, h3, h4, h5⟩
    intro q hq
    exact List.mem_append_left _ (h2 q hq)
  · intro st p rest d _ hv _ hf h
    obtain ⟨h1, h2, h3, h4, h5⟩ := stateInv_visit hv h
    refine ⟨h1, h2, h3, ?_, ?_⟩
    · intro pr hpr
      exact h4 pr hpr
    · intro nd hnd
      rcases List.mem_append.1 hnd with hnd | hnd
      · exact h5 nd hnd
      · obtain rfl : nd = (docFileName p, d) := by simpa using hnd
        exact ⟨p, by simp, by simpa using hf, rfl⟩
  · intro st p rest d _ hv _ _ _ h
    exact stateInv_visit hv h
  · intro st p rest e _ hv _ hf hns h
    obtain ⟨h1, h2, h3, h4, h5⟩ := stateInv_visit hv h
    refine ⟨h1, h2, h3, ?_, ?_⟩
    · intro pr hpr
      rcases List.mem_append.1 hpr with hpr | hpr
      · exact h4 pr hpr
      · obtain rfl : pr = (p, e) := by simpa using hpr
        exact ⟨by simp, hf, hns⟩
    · intro nd hnd
      exact h5 nd hnd

/-! ## Scope containment -/

/-- Every path in the frontier and every attempted path starts with
`"documentation/" ++ module`. -/
def PrefixInv (module : String) (st : CrawlState) : Prop :=
  (∀ p ∈ st.queue, pyStartsWith p ("documentation/" ++ module) = true) ∧
  (∀ p ∈ st.attempted, pyStartsWith p ("documentation/" ++ module) = true)

theorem prefixInv_run (w : World) (module : String) (limit : Option Int)
    (fuel : Nat)
    (hm : ∀ h : ("documentation/" ++ module).data ≠ [],
      ("documentation/" ++ module).data.getLast h ≠ '/') :
    PrefixInv module (fetchModule w module limit fuel).state := by
  have hinit : PrefixInv module (initState module) := by
    constructor
    · intro p hp
      obtain rfl : p = "documentation/" ++ module := by simpa [initState] using hp
      simp [pyStartsWith]
    · intro p hp
      simp [initState] at hp
  refine crawlLoop_state_inv w module limit (PrefixInv module)
    ?_ ?_ ?_ ?_ ?_ fuel _ hinit
  · intro st p rest hq _ h
    exact ⟨fun q hqm => h.1 q (hq ▸ List.mem_cons_of_mem p hqm), h.2⟩
  · intro st p rest hq _ _ h
    exact ⟨fun q hqm => h.1 q (hq ▸ List.mem_cons_of_mem p hqm), h.2⟩
  · intro st p rest d hq hv _ _ h
    have hp : pyStartsWith p ("documentation/" ++ module) = true :=
      h.1 p (hq ▸ List.mem_cons_self p rest)
    constructor
    · intro q hqm
      rcases List.mem_append.1 hqm with hqm | hqm
      · exact h.1 q (hq ▸ List.mem_cons_of_mem p hqm)
      · exact extractRefs_startsWith hm hqm
    · intro q hqm
      rcases List.mem_append.1 hqm with hqm | hqm
      · exact h.2 q hqm
      · exact (List.mem_singleton.1 hqm) ▸ hp
  · intro st p rest d hq hv _ _ _ h
    have hp : pyStartsWith p ("documentation/" ++ module) = true :=
      h.1 p (hq ▸ List.mem_cons_self p rest)
    constructor
    · intro q hqm
      exact h.1 q (hq ▸ List.mem_cons_of_mem p hqm)
    · intro q hqm
      rcases List.mem_append.1 hqm with hqm | hqm
      · exact h.2 q hqm
      · exact (List.mem_singleton.1 hqm) ▸ hp
  · intro st p rest e hq hv _ _ _ h
    have hp : pyStartsWith p ("documentation/" ++ module) = true :=
      h.1 p (hq ▸ List.mem_cons_self p rest)
    constructor
    · intro q hqm
      exact h.1 q (hq ▸ List.mem_cons_of_mem p hqm)
    · intro q hqm
      rcases List.mem_append.1 hqm with hqm | hqm
      · exact h.2 q hqm
      · exact (List.mem_singleton.1 hqm) ▸ hp

/-! ## The visit limit bounds the number of fetch attempts -/

/-- With a configured limit `l`, a fetch is only attempted while the visited
set stays within `l`, so the number of attempts never exceeds `max l 0`. -/
def LimitInv (l : Int) (st : CrawlState) : Prop :=
  st.attempted.Nodup ∧ (∀ p ∈ st.attempted, p ∈ st.visited) ∧
  (st.attempted.length : Int) ≤ max l 0

theorem limitInv_visit {l : Int} {st : CrawlState} {p : String}
    (hv : p ∉ st.visited)
    (hl : limitExceeded (some l) (st.visited ++ [p]).length = false)
    (h : LimitInv l st) :
    LimitInv l { st with visited := st.visited ++ [p],
                         attempted := st.attempted ++ [p] } := by
  obtain ⟨hnd, hsub, _⟩ := h
  have hnd' : (st.attempted ++ [p]).Nodup :=
    nodup_append_single hnd (fun hp => hv (hsub p hp))
  have hsub' : ∀ q ∈ st.attempted ++ [p], q ∈ st.visited ++ [p] := by
    intro q hq
    rcases List.mem_append.1 hq with hq | hq
    · exact List.mem_append_left _ (hsub q hq)
    · exact List.mem_append_right _ hq
  have hlen : (st.attempted ++ [p]).length ≤ (st.visited ++ [p]).length :=
    (List.Nodup.subperm hnd' hsub').length_le
  have hvl : ((st.visited ++ [p]).length : Int) ≤ l := by
    simp only [limitExceeded, decide_eq_false_iff_not, not_lt] at hl
    exact hl
  refine ⟨hnd', hsub', ?_⟩
  calc ((st.attempted ++ [p]).length : Int)
      ≤ ((st.visited ++ [p]).length : Int) := by exact_mod_cast hlen
    _ ≤ l := hvl
    _ ≤ max l 0 := le_max_left l 0

theorem limitInv_run (w : World) (module : String) (l : Int) (fuel : Nat) :
    LimitInv l (fetchModule w module (some l) fuel).state := by
  have hinit : LimitInv l (initState module) := by
    refine ⟨by simp [initState], by simp [initState], by simp [initState, le_max_iff]⟩
  refine crawlLoop_state_inv w module (some l) (LimitInv l)
    ?_ ?_ ?_ ?_ ?_ fuel _ hinit
  · intro st p rest _ _ h
    exact h
  · intro st p rest _ _ _ h
    exact ⟨h.1, fun q hq => List.mem_append_left _ (h.2.1 q hq), h.2.2⟩
  · intro st p rest d _ hv hl _ h
    exact limitInv_visit hv hl h
  · intro st p rest d _ hv hl _ _ h
    exact limitInv_visit hv hl h
  · intro st p rest e _ hv hl _ _ h
    exact limitInv_visit hv hl h

/-! ## Attempts partition into files and failures on normal completion -/

/-- In a run that completes normally, every fetch attempt produced either a
stored file or a reported failure. -/
def CountInv (st : CrawlState) : Prop :=
  st.attempted.length = st.files.length + st.failures.length

theorem countInv_run {w : World} {module : String} {limit : Option Int}
    {fuel : Nat} {s : CrawlState}
    (h : fetchModule w module limit fuel = .ok s) : CountInv s := by
  refine crawlLoop_ok_inv w module limit CountInv
    ?_ ?_ ?_ ?_ fuel _ s (by simp [CountInv, initState]) h
  · intro st p rest _ _ hc
    exact hc
  · intro st p rest _ _ _ hc
    exact hc
  · intro st p rest d _ _ _ _ hc
    simp only [CountInv, List.length_append, List.length_singleton] at hc ⊢
    omega
  · intro st p rest e _ _ _ _ _ hc
    simp only [CountInv, List.length_append, List.length_singleton] at hc ⊢
    omega

/-! ## Aborts come only from storage failures -/

/-- Whether the run ran out of fuel. -/
def RunResult.isOutOfFuel : RunResult → Bool
  | .outOfFuel _ => true
  | _ => false

/-- Whether the run aborted (an exception escaped `fetch_module`). -/
def RunResult.isAborted : RunResult → Bool
  | .aborted _ _ => true
  | _ => false

/-- If a run aborts, the abort happened at the unguarded write of a
successfully fetched document whose storage failed; fetch failures never
abort the run. -/
theorem aborted_only_on_store_failure (w : World) (module : String)
    (limit : Option Int) :
    ∀ fuel st s n, crawlLoop w module limit fuel st = .aborted s n →
      w.store n = false ∧
      ∃ p d, lookupFetch w p = FetchOutcome.success d ∧ n = docFileName p := by
  intro fuel
  induction fuel with
  | zero =>
    intro st s n heq
    rw [crawlLoop] at heq
    cases heq
  | succ k ih =>
    intro st s n
    rw [crawlLoop]
    cases hq : st.queue with
    | nil =>
      intro heq
      cases heq
    | cons p rest =>
      by_cases hv : p ∈ st.visited
      · simp only [if_pos hv]
        exact ih _ s n
      · simp only [if_neg hv]
        cases hl : limitExceeded limit (st.visited ++ [p]).length with
        | true =>
          simp only [hl, if_true]
          intro heq
          cases heq
        | false =>
          simp only [Bool.false_eq_true, if_false]
          cases hf : lookupFetch w p with
          | success d =>
            cases hs : w.store (docFileName p) with
            | true =>
              simp only [hs, if_true]
              exact ih _ s n
            | false =>
              simp only [hs]
              intro heq
              cases heq
              exact ⟨hs, p, d, hf, rfl⟩
          | httpError c =>
            exact ih _ s n
          | otherError msg =>
            exact ih _ s n

/-! ## Single-iteration behavior -/

/-- One loop iteration on a fresh frontier head whose fetch succeeds and
whose write succeeds: the file is recorded and every in-scope reference is
appended to the tail of the frontier, unconditionally. -/
theorem crawlLoop_step_success (w : World) (module : String)
    (limit : Option Int) (fuel : Nat) (st : CrawlState) (p : String)
    (rest : List String) (d : Doc)
    (hq : st.queue = p :: rest) (hv : p ∉ st.visited)
    (hl : limitExceeded limit (st.visited ++ [p]).length = false)
    (hf : lookupFetch w p = FetchOutcome.success d)
    (hs : w.store (docFileName p) = true) :
    crawlLoop w module limit (fuel + 1) st =
      crawlLoop w module limit fuel
        { st with queue := rest ++ extractRefs module d,
                  visited := st.visited ++ [p],
                  attempted := st.attempted ++ [p],
                  files := st.files ++ [(docFileName p, d)] } := by
  rw [crawlLoop, hq]
  simp only [hv, if_neg, not_false_eq_true, hl, Bool.false_eq_true, if_false,
    hf, hs, if_true]

/-- One loop iteration on a fresh frontier head whose fetch succeeds but
whose write fails: the run aborts at once with the derived file name; the
remaining frontier is abandoned. -/
theorem crawlLoop_step_abort (w : World) (module : String)
    (limit : Option Int) (fuel : Nat) (st : CrawlState) (p : String)
    (rest : List String) (d : Doc)
    (hq : st.queue = p :: rest) (hv : p ∉ st.visited)
    (hl : limitExceeded limit (st.visited ++ [p]).length = false)
    (hf : lookupFetch w p = FetchOutcome.success d)
    (hs : w.store (docFileName p) = false) :
    crawlLoop w module limit (fuel + 1) st =
      .aborted { st with queue := rest,
                         visited := st.visited ++ [p],
                         attempted := st.attempted ++ [p] }
        (docFileName p) := by
  rw [crawlLoop, hq]
  simp only [hv, if_neg, not_false_eq_true, hl, Bool.false_eq_true, if_false,
    hf, hs]

/-- One loop iteration on a fresh frontier head whose fetch fails: the
failure is recorded with the path and the error, nothing is enqueued, and
the loop continues with the rest of the frontier. -/
theorem crawlLoop_step_failure (w : World) (module : String)
    (limit : Option Int) (fuel : Nat) (st : CrawlState) (p : String)
    (rest : List String) (e : FetchOutcome)
    (hq : st.queue = p :: rest) (hv : p ∉ st.visited)
    (hl : limitExceeded limit (st.visited ++ [p]).length = false)
    (hf : lookupFetch w p = e) (hns : ∀ d, e ≠ FetchOutcome.success d) :
    crawlLoop w module limit (fuel + 1) st =
      crawlLoop w module limit fuel
        { st with queue := rest,
                  visited := st.visited ++ [p],
                  attempted := st.attempted ++ [p],
                  failures := st.failures ++ [(p, e)] } := by
  rw [crawlLoop, hq]
  cases e with
  | success d => exact absurd rfl (hns d)
  | httpError c =>
    simp only [hv, if_neg, not_false_eq_true, hl, Bool.false_eq_true,
      if_false, hf]
  | otherError msg =>
    simp only [hv, if_neg, not_false_eq_true, hl, Bool.false_eq_true,
      if_false, hf]

/-! ## Termination

The remote service is a finite table, so a run can only discover finitely
many documents.  The measure below — frontier length plus, for every not yet
visited path in the service's table, one unit plus the number of frontier
entries its document would contribute — strictly decreases at every loop
iteration, so any fuel beyond the initial measure suffices. -/

/-- How many frontier entries a successful fetch of `p` would append. -/
def refCount (w : World) (module : String) (p : String) : Nat :=
  match lookupFetch w p with
  | .success d => (extractRefs module d).length
  | _ => 0

/-- The fuel a not-yet-visited service path may still consume. -/
def pathCost (w : World) (module : String) (p : String) : Nat :=
  1 + refCount w module p

/-- Total remaining cost of the service paths outside the visited set. -/
def freshCost (w : World) (module : String) (visited : List String) : Nat :=
  (((w.fetch.map Prod.fst).filter (fun p => decide (p ∉ visited))).map
    (pathCost w module)).sum

/-- The loop measure: frontier length plus remaining fresh cost. -/
def stateMeasure (w : World) (module : String) (st : CrawlState) : Nat :=
  st.queue.length + freshCost w module st.visited

theorem filter_map_sum_mono {α : Type} (cost : α → Nat) (q1 q2 : α → Bool)
    (himp : ∀ x, q1 x = true → q2 x = true) :
    ∀ keys : List α,
      ((keys.filter q1).map cost).sum ≤ ((keys.filter q2).map cost).sum := by
  intro keys
  induction keys with
  | nil => simp
  | cons k ks ih =>
    cases h1 : q1 k with
    | true =>
      rw [List.filter_cons_of_pos h1, List.filter_cons_of_pos (himp k h1)]
      simpa using ih
    | false =>
      rw [List.filter_cons_of_neg (by simp [h1])]
      cases h2 : q2 k with
      | true =>
        rw [List.filter_cons_of_pos h2]
        simp only [List.map_cons, List.sum_cons]
        omega
      | false =>
        rw [List.filter_cons_of_neg (by simp [h2])]
        exact ih

theorem freshCost_mono (w : World) (module : String) (visited : List String)
    (p : String) :
    freshCost w module (visited ++ [p]) ≤ freshCost w module visited := by
  apply filter_map_sum_mono
  intro x hx
  simp only [decide_eq_true_eq] at hx ⊢
  intro hm
  exact hx (List.mem_append_left _ hm)

theorem freshCost_drop {α : Type} [DecidableEq α] (cost : α → Nat) :
    ∀ (keys : List α) (visited : List α) (p : α), p ∈ keys → p ∉ visited →
      cost p + (((keys.filter (fun q => decide (q ∉ visited ++ [p]))).map
        cost).sum) ≤
      ((keys.filter (fun q => decide (q ∉ visited))).map cost).sum := by
  intro keys
  induction keys with
  | nil =>
    intro visited p hp
    cases hp
  | cons k ks ih =>
    intro visited p hp hv
    by_cases hkp : k = p
    · subst hkp
      have hmem : k ∈ visited ++ [k] :=
        List.mem_append_right _ (List.mem_singleton.2 rfl)
      rw [List.filter_cons_of_neg
          (by simp only [decide_eq_true_eq]; exact not_not_intro hmem),
        List.filter_cons_of_pos
          (by simp only [decide_eq_true_eq]; exact hv)]
      simp only [List.map_cons, List.sum_cons]
      have := filter_map_sum_mono cost
        (fun q => decide (q ∉ visited ++ [k])) (fun q => decide (q ∉ visited))
        (by
          intro x hx
          simp only [decide_eq_true_eq] at hx ⊢
          intro hm
          exact hx (List.mem_append_left _ hm)) ks
      omega
    · have hp' : p ∈ ks := by
        rcases List.mem_cons.1 hp with h | h
        · exact absurd h.symm hkp
        · exact h
      by_cases hkv : k ∈ visited
      · have hk1 : k ∈ visited ++ [p] := List.mem_append_left _ hkv
        rw [List.filter_cons_of_neg
            (by simp only [decide_eq_true_eq]; exact not_not_intro hk1),
          List.filter_cons_of_neg
            (by simp only [decide_eq_true_eq]; exact not_not_intro hkv)]
        exact ih visited p hp' hv
      · have hkv' : k ∉ visited ++ [p] := by
          simp only [List.mem_append, List.mem_singleton]
          rintro (h | h)
          · exact hkv h
          · exact hkp h
        rw [List.filter_cons_of_pos
            (by simp only [decide_eq_true_eq]; exact hkv'),
          List.filter_cons_of_pos
            (by simp only [decide_eq_true_eq]; exact hkv)]
        simp only [List.map_cons, List.sum_cons]
        have := ih visited p hp' hv
        omega

theorem lookupFetch_success_mem {w : World} {p : String} {d : Doc}
    (hf : lookupFetch w p = FetchOutcome.success d) :
    p ∈ w.fetch.map Prod.fst := by
  unfold lookupFetch at hf
  cases hfind : w.fetch.find? (fun e => e.1 == p) with
  | none => rw [hfind] at hf; cases hf
  | some e =>
    have hmem := List.mem_of_find?_eq_some hfind
    have hbeq := List.find?_some hfind
    have : e.1 = p := by simpa using hbeq
    exact this ▸ List.mem_map_of_mem Prod.fst hmem

/-- Any fuel above the state measure is enough: the run never ends by
running out of fuel. -/
theorem crawlLoop_terminates (w : World) (module : String)
    (limit : Option Int) :
    ∀ fuel st, stateMeasure w module st < fuel →
      (crawlLoop w module limit fuel st).isOutOfFuel = false := by
  intro fuel
  induction fuel with
  | zero =>
    intro st h
    cases h
  | succ k ih =>
    intro st hm
    rw [crawlLoop]
    cases hq : st.queue with
    | nil => rfl
    | cons p rest =>
      have hqlen : st.queue.length = rest.length + 1 := by rw [hq]; rfl
      by_cases hv : p ∈ st.visited
      · simp only [if_pos hv]
        apply ih
        simp only [stateMeasure] at hm ⊢
        omega
      · simp only [if_neg hv]
        cases hl : limitExceeded limit (st.visited ++ [p]).length with
        | true => simp only [hl, if_true]; rfl
        | false =>
          simp only [Bool.false_eq_true, if_false]
          cases hf : lookupFetch w p with
          | success d =>
            cases hs : w.store (docFileName p) with
            | true =>
              simp only [hs, if_true]
              apply ih
              have hdrop := freshCost_drop (pathCost w module)
                (w.fetch.map Prod.fst) st.visited p
                (lookupFetch_success_mem hf) hv
              have hcost : pathCost w module p =
                  1 + (extractRefs module d).length := by
                simp [pathCost, refCount, hf]
              simp only [stateMeasure, freshCost] at hm hdrop ⊢
              simp only [List.length_append]
              omega
            | false =>
              simp only [hs]
              rfl
          | httpError c =>
            apply ih
            have hmono := freshCost_mono w module st.visited p
            simp only [stateMeasure] at hm ⊢
            omega
          | otherError msg =>
            apply ih
            have hmono := freshCost_mono w module st.visited p
            simp only [stateMeasure] at hm ⊢
            omega

/-! ## Concrete scenario worlds -/

/-- The spec's scenario: the `Widgets` seed references `Widgets/Gadget`
(in scope) and `Other/Thing` (out of scope); storage always succeeds. -/
def widgetsWorld : World :=
  { fetch := [
      ("documentation/Widgets",
        .success ⟨[.dict (some (.str "/documentation/Widgets/Gadget")),
                   .dict (some (.str "/documentation/Other/Thing"))]⟩),
      ("documentation/Widgets/Gadget", .success ⟨[]⟩)]
    store := fun _ => true }

/-- Limit scenario: the seed references two further in-scope nodes. -/
def limitWorld : World :=
  { fetch := [
      ("documentation/M",
        .success ⟨[.dict (some (.str "/documentation/M/a")),
                   .dict (some (.str "/documentation/M/b"))]⟩),
      ("documentation/M/a", .success ⟨[]⟩),
      ("documentation/M/b", .success ⟨[]⟩)]
    store := fun _ => true }

/-- Cycle scenario: document A (`documentation/M`) references B
(`documentation/M/B`) and B references A back. -/
def cycleWorld : World :=
  { fetch := [
      ("documentation/M",
        .success ⟨[.dict (some (.str "/documentation/M/B"))]⟩),
      ("documentation/M/B",
        .success ⟨[.dict (some (.str "/documentation/M"))]⟩)]
    store := fun _ => true }

/-- Storage-failure scenario: the seed fetch succeeds, its write fails, and a
second in-scope node is still on the frontier. -/
def storeFailWorld : World :=
  { fetch := [
      ("documentation/M",
        .success ⟨[.dict (some (.str "/documentation/M/a"))]⟩),
      ("documentation/M/a", .success ⟨[]⟩)]
    store := fun n => n != "documentation_M.json" }

/-- Fetch-failure scenario: the seed references a missing node twice and a
good node after it. -/
def failWorld : World :=
  { fetch := [
      ("documentation/M",
        .success ⟨[.dict (some (.str "/documentation/M/bad")),
                   .dict (some (.str "/documentation/M/bad")),
                   .dict (some (.str "/documentation/M/good"))]⟩),
      ("documentation/M/bad", .httpError 404),
      ("documentation/M/good", .success ⟨[]⟩)]
    store := fun _ => true }

/-- Reference-shape scenario: the seed's document carries one in-scope
reference written without a leading slash and one reference back to the
(already visited) seed itself. -/
def refShapeWorld : World :=
  { fetch := [
      ("documentation/M",
        .success ⟨[.dict (some (.str "documentation/M/noslash")),
                   .dict (some (.str "/documentation/M"))]⟩)]
    store := fun _ => true }

/-! ## Auxiliary conversion for the module-shape hypothesis -/

theorem getLast_ne_of_getLast?_ne {l : List Char} {c : Char}
    (h : l.getLast? ≠ some c) : ∀ hne : l ≠ [], l.getLast hne ≠ c := by
  intro hne hc
  exact h (by rw [List.getLast?_eq_getLast l hne, hc])

/-! ## Claims -/

/-- C1, counterexample: `fetch_module` does not return a pair of counts at
the spec's own scenario input — its return value is `None`. -/
theorem c1_counterexample :
    ¬ ∃ c : Nat × Nat,
      fetchModuleReturn widgetsWorld "Widgets" none = some c := by
  simp [fetchModuleReturn]

/-- C1, amended: `fetch_module` returns `None` rather than counts; the run
nevertheless determines the two tallies, since on normal completion the
attempted nodes split exactly into stored files and reported failures. -/
theorem c1_amended (w : World) (module : String) (limit : Option Int)
    (fuel : Nat) (s : CrawlState)
    (h : fetchModule w module limit fuel = RunResult.ok s) :
    fetchModuleReturn w module limit = none ∧
    s.attempted.length = s.files.length + s.failures.length :=
  ⟨rfl, countInv_run h⟩

/-- C1, witness for the amended theorem at the Widgets scenario. -/
theorem c1_amended_witness :
    fetchModuleReturn widgetsWorld "Widgets" none = none ∧
    (fetchModule widgetsWorld "Widgets" none 10).state.attempted.length =
      (fetchModule widgetsWorld "Widgets" none 10).state.files.length +
      (fetchModule widgetsWorld "Widgets" none 10).state.failures.length :=
  c1_amended widgetsWorld "Widgets" none 10
    (fetchModule widgetsWorld "Widgets" none 10).state (by decide)

/-- C2, counterexample: a storage failure aborts the run.  In
`storeFailWorld` the seed is fetched, its write fails, the run terminates
abnormally, and the referenced in-scope node `documentation/M/a` is never
processed. -/
theorem c2_counterexample :
    (fetchModule storeFailWorld "M" none 10).isAborted = true ∧
    (fetchModule storeFailWorld "M" none 10).state.attempted =
      ["documentation/M"] ∧
    "documentation/M/a" ∉
      (fetchModule storeFailWorld "M" none 10).state.attempted := by
  decide

/-- C2, amended: a failure while persisting a fetched document is not
caught: the crawl aborts immediately at the failing write — the node still
counts as attempted, nothing is stored for it, and the remaining frontier is
abandoned — and every abnormal termination arises from such a storage
failure. -/
theorem c2_amended (w : World) (module : String) (limit : Option Int)
    (fuel : Nat) (st : CrawlState) (p : String) (rest : List String) (d : Doc)
    (hq : st.queue = p :: rest) (hv : p ∉ st.visited)
    (hl : limitExceeded limit (st.visited ++ [p]).length = false)
    (hf : lookupFetch w p = FetchOutcome.success d)
    (hs : w.store (docFileName p) = false) :
    crawlLoop w module limit (fuel + 1) st =
      RunResult.aborted
        { st with queue := rest,
                  visited := st.visited ++ [p],
                  attempted := st.attempted ++ [p] }
        (docFileName p) ∧
    (∀ fuel' s n, fetchModule w module limit fuel' = RunResult.aborted s n →
      w.store n = false) := by
  refine ⟨crawlLoop_step_abort w module limit fuel st p rest d hq hv hl hf hs, ?_⟩
  intro fuel' s n habort
  exact (aborted_only_on_store_failure w module limit fuel' _ s n habort).1

/-- C2, witness for the amended theorem: the abort step at the seed of
`storeFailWorld`. -/
theorem c2_amended_witness :
    crawlLoop storeFailWorld "M" none 1 (initState "M") =
      RunResult.aborted
        { (initState "M") with
          queue := [],
          visited := [] ++ ["documentation/M"],
          attempted := [] ++ ["documentation/M"] }
        (docFileName "documentation/M") ∧
    (∀ fuel' s n,
      fetchModule storeFailWorld "M" none fuel' = RunResult.aborted s n →
      storeFailWorld.store n = false) :=
  c2_amended storeFailWorld "M" none 0 (initState "M") "documentation/M" []
    ⟨[.dict (some (.str "/documentation/M/a"))]⟩
    (by decide) (by decide) (by decide) (by decide) (by decide)

/-- C4: with a configured limit `l` the number of fetch attempts never
exceeds `max l 0`, and in the spec's scenario (limit 1, a seed referencing
two further in-scope nodes) only the seed is fetched: the two referenced
nodes never reach the fetch step, the limit break fires, and the second
reference is abandoned on the frontier. -/
theorem c4_limit_bound (w : World) (module : String) (l : Int) (fuel : Nat) :
    ((fetchModule w module (some l) fuel).state.attempted.length : Int) ≤
      max l 0 ∧
    (fetchModule limitWorld "M" (some 1) 10).state.attempted =
      ["documentation/M"] ∧
    "documentation/M/a" ∉ (fetchModule limitWorld "M" (some 1) 10).state.attempted ∧
    "documentation/M/b" ∉ (fetchModule limitWorld "M" (some 1) 10).state.attempted ∧
    (fetchModule limitWorld "M" (some 1) 10).state.limitHit = true ∧
    (fetchModule limitWorld "M" (some 1) 10).state.queue =
      ["documentation/M/b"] := by
  refine ⟨(limitInv_run w module l fuel).2.2, ?_, ?_, ?_, ?_, ?_⟩ <;> decide

/-- C5: the crawl terminates on every (finite) reference graph — fuel one
beyond the initial measure is never exhausted — every topic path is fetched
at most once per run, and in the two-node cycle each of A and B is fetched
exactly once. -/
theorem c5_termination_and_at_most_once :
    (∀ (w : World) (module : String) (limit : Option Int),
      (fetchModule w module limit
        (stateMeasure w module (initState module) + 1)).isOutOfFuel = false) ∧
    (∀ (w : World) (module : String) (limit : Option Int) (fuel : Nat),
      (fetchModule w module limit fuel).state.attempted.Nodup) ∧
    (fetchModule cycleWorld "M" none 10).state.attempted =
      ["documentation/M", "documentation/M/B"] ∧
    (fetchModule cycleWorld "M" none 10).isOutOfFuel = false := by
  refine ⟨?_, ?_, by decide, by decide⟩
  · intro w module limit
    exact crawlLoop_terminates w module limit _ _ (Nat.lt_succ_self _)
  · intro w module limit fuel
    exact (stateInv_run w module limit fuel).2.2.1

/-- Transport-failure scenario: the seed's fetch raises a generic exception
(caught by the `except Exception` arm). -/
def transportFailWorld : World :=
  { fetch := [("documentation/M", .otherError "timed out")]
    store := fun _ => true }

/-- C3: scope containment.  For a well-formed module name (`documentation/
<module>` does not end in a path separator — in particular the module is
non-empty), every attempted path starts with `documentation/<module>`, and a
path outside that namespace prefix is never fetched. -/
theorem c3_scope_containment (w : World) (module : String) (limit : Option Int)
    (fuel : Nat)
    (hm : ("documentation/" ++ module).data.getLast? ≠ some '/') :
    (∀ p ∈ (fetchModule w module limit fuel).state.attempted,
      pyStartsWith p ("documentation/" ++ module) = true) ∧
    (∀ q, pyStartsWith q ("documentation/" ++ module) = false →
      q ∉ (fetchModule w module limit fuel).state.attempted) := by
  have h := prefixInv_run w module limit fuel (getLast_ne_of_getLast?_ne hm)
  refine ⟨h.2, ?_⟩
  intro q hq hmem
  rw [h.2 q hmem] at hq
  cases hq

/-- C3, witness at the Widgets scenario. -/
theorem c3_scope_containment_witness :
    ("documentation/" ++ "Widgets").data.getLast? ≠ some '/' ∧
    ((∀ p ∈ (fetchModule widgetsWorld "Widgets" none 10).state.attempted,
      pyStartsWith p ("documentation/" ++ "Widgets") = true) ∧
    (∀ q, pyStartsWith q ("documentation/" ++ "Widgets") = false →
      q ∉ (fetchModule widgetsWorld "Widgets" none 10).state.attempted)) :=
  ⟨by decide, c3_scope_containment widgetsWorld "Widgets" none 10 (by decide)⟩

/-- Membership in the extracted references of a document. -/
theorem mem_extractRefs {module : String} {d : Doc} {q : String} :
    q ∈ extractRefs module d ↔
      ∃ r ∈ d.references, ∃ u, refUrlString r = some u ∧
        pyStartsWith u ("/documentation/" ++ module) = true ∧ q = pyStrip u := by
  simp only [extractRefs, List.mem_filterMap]
  constructor
  · rintro ⟨r, hr, hfr⟩
    cases hru : refUrlString r with
    | none => rw [hru] at hfr; cases hfr
    | some u =>
      rw [hru] at hfr
      simp only at hfr
      by_cases hsw : pyStartsWith u ("/documentation/" ++ module) = true
      · rw [if_pos hsw] at hfr
        refine ⟨r, hr, u, hru, hsw, ?_⟩
        exact (Option.some.injEq _ _ ▸ hfr).symm
      · rw [if_neg hsw] at hfr
        cases hfr
  · rintro ⟨r, hr, u, hru, hsw, rfl⟩
    refine ⟨r, hr, ?_⟩
    rw [hru]
    simp [hsw]

/-- C6, counterexample.  In `refShapeWorld` the seed's document references
`documentation/M/noslash` (in scope but written without a leading separator)
and `/documentation/M` (the already-visited seed).  After the first
iteration the frontier holds exactly the already-visited seed path — which
the claim's "if and only if not already visited" forbids — and not the
separator-less path, which the claim's "after removing a leading path
separator if present" requires. -/
theorem c6_counterexample :
    "documentation/M" ∈
      (crawlLoop refShapeWorld "M" none 1 (initState "M")).state.visited ∧
    (crawlLoop refShapeWorld "M" none 1 (initState "M")).state.queue =
      ["documentation/M"] ∧
    "documentation/M/noslash" ∉
      (crawlLoop refShapeWorld "M" none 1 (initState "M")).state.queue := by
  decide

/-- C6, amended: the crawler enqueues exactly the references whose `url`
string begins with `/documentation/<module>` — the leading separator is
required — normalized by trimming leading and trailing separators, and the
normalized path is appended to the tail of the frontier unconditionally;
already-visited duplicates are discarded at dequeue time instead. -/
theorem c6_amended (w : World) (module : String) (limit : Option Int)
    (fuel : Nat) (st : CrawlState) (p : String) (rest : List String) (d : Doc)
    (hq : st.queue = p :: rest) (hv : p ∉ st.visited)
    (hl : limitExceeded limit (st.visited ++ [p]).length = false)
    (hf : lookupFetch w p = FetchOutcome.success d)
    (hs : w.store (docFileName p) = true) :
    crawlLoop w module limit (fuel + 1) st =
      crawlLoop w module limit fuel
        { st with queue := rest ++ extractRefs module d,
                  visited := st.visited ++ [p],
                  attempted := st.attempted ++ [p],
                  files := st.files ++ [(docFileName p, d)] } ∧
    (∀ q, q ∈ extractRefs module d ↔
      ∃ r ∈ d.references, ∃ u, refUrlString r = some u ∧
        pyStartsWith u ("/documentation/" ++ module) = true ∧ q = pyStrip u) :=
  ⟨crawlLoop_step_success w module limit fuel st p rest d hq hv hl hf hs,
    fun _ => mem_extractRefs⟩

/-- C6, witness for the amended theorem at the `refShapeWorld` seed step. -/
theorem c6_amended_witness :
    crawlLoop refShapeWorld "M" none 1 (initState "M") =
      crawlLoop refShapeWorld "M" none 0
        { (initState "M") with
          queue := [] ++ extractRefs "M"
            ⟨[.dict (some (.str "documentation/M/noslash")),
              .dict (some (.str "/documentation/M"))]⟩,
          visited := [] ++ ["documentation/M"],
          attempted := [] ++ ["documentation/M"],
          files := [] ++ [(docFileName "documentation/M",
            ⟨[.dict (some (.str "documentation/M/noslash")),
              .dict (some (.str "/documentation/M"))]⟩)] } ∧
    (∀ q, q ∈ extractRefs "M"
        ⟨[.dict (some (.str "documentation/M/noslash")),
          .dict (some (.str "/documentation/M"))]⟩ ↔
      ∃ r ∈ (Doc.mk [.dict (some (.str "documentation/M/noslash")),
          .dict (some (.str "/documentation/M"))]).references,
        ∃ u, refUrlString r = some u ∧
          pyStartsWith u ("/documentation/" ++ "M") = true ∧ q = pyStrip u) :=
  c6_amended refShapeWorld "M" none 0 (initState "M") "documentation/M" []
    ⟨[.dict (some (.str "documentation/M/noslash")),
      .dict (some (.str "/documentation/M"))]⟩
    (by decide) (by decide) (by decide) (by decide) (by decide)

/-- C7, counterexample: in `transportFailWorld` the seed's fetch fails with
a generic transport error.  The failure event is recorded and the crawl
survives, but the line the `except Exception` arm prints is exactly
`Error timed out`, which does not contain the failing path — so the claim's
"the failure is reported with the path and an error descriptor" is false
for transport errors. -/
theorem c7_counterexample :
    (fetchModule transportFailWorld "M" none 10).state.failures =
      [("documentation/M", FetchOutcome.otherError "timed out")] ∧
    failureReportLine "documentation/M"
      (FetchOutcome.otherError "timed out") = "Error timed out" ∧
    ¬ ("documentation/M".data <:+: "Error timed out".data) := by
  refine ⟨by decide, by decide, by decide⟩

/-- C7, amended: a fetch failure is reported with an error descriptor —
for a not-found-style `HTTPError` the printed line contains the full url
and hence the failing path, while for any other transport error the printed
line is only `Error` plus the exception text, identical whatever the path;
nothing from the failed node is enqueued and the loop continues with the
next frontier entry, the node is never retried within the run, and a fetch
failure never aborts the crawl (every abort stems from a storage failure). -/
theorem c7_amended (w : World) (module : String) (limit : Option Int)
    (fuel : Nat) (st : CrawlState) (p : String) (rest : List String)
    (e : FetchOutcome)
    (hq : st.queue = p :: rest) (hv : p ∉ st.visited)
    (hl : limitExceeded limit (st.visited ++ [p]).length = false)
    (hf : lookupFetch w p = e) (hns : ∀ d, e ≠ FetchOutcome.success d) :
    crawlLoop w module limit (fuel + 1) st =
      crawlLoop w module limit fuel
        { st with queue := rest,
                  visited := st.visited ++ [p],
                  attempted := st.attempted ++ [p],
                  failures := st.failures ++ [(p, e)] } ∧
    (∀ c, e = FetchOutcome.httpError c →
      p.data <:+: (failureReportLine p e).data) ∧
    (∀ msg, e = FetchOutcome.otherError msg →
      failureReportLine p e = "Error " ++ msg ∧
      ∀ q : String, failureReportLine q e = failureReportLine p e) ∧
    (∀ fuel', (fetchModule w module limit fuel').state.attempted.Nodup) ∧
    (∀ fuel' s n, fetchModule w module limit fuel' = RunResult.aborted s n →
      w.store n = false) := by
  refine ⟨crawlLoop_step_failure w module limit fuel st p rest e hq hv hl hf hns,
    ?_, ?_, ?_, ?_⟩
  · rintro c rfl
    refine ⟨("HTTPError " ++ toString c ++ " " ++ BASE_URL ++ "/").data,
      ".json".data, ?_⟩
    simp [failureReportLine, fetchUrl, String.data_append, List.append_assoc]
  · rintro msg rfl
    exact ⟨rfl, fun q => rfl⟩
  · intro fuel'
    exact (stateInv_run w module limit fuel').2.2.1
  · intro fuel' s n habort
    exact (aborted_only_on_store_failure w module limit fuel' _ s n habort).1

/-- C7, witness for the amended theorem at the transport-failing seed of
`transportFailWorld`. -/
theorem c7_amended_witness :
    (crawlLoop transportFailWorld "M" none 1 (initState "M") =
      crawlLoop transportFailWorld "M" none 0
        { (initState "M") with
          queue := [],
          visited := [] ++ ["documentation/M"],
          attempted := [] ++ ["documentation/M"],
          failures := [] ++ [("documentation/M",
            FetchOutcome.otherError "timed out")] }) ∧
    (∀ c, FetchOutcome.otherError "timed out" = FetchOutcome.httpError c →
      "documentation/M".data <:+:
        (failureReportLine "documentation/M"
          (FetchOutcome.otherError "timed out")).data) ∧
    (∀ msg, FetchOutcome.otherError "timed out" =
        FetchOutcome.otherError msg →
      failureReportLine "documentation/M"
          (FetchOutcome.otherError "timed out") = "Error " ++ msg ∧
      ∀ q : String, failureReportLine q
          (FetchOutcome.otherError "timed out") =
        failureReportLine "documentation/M"
          (FetchOutcome.otherError "timed out")) ∧
    (∀ fuel',
      (fetchModule transportFailWorld "M" none fuel').state.attempted.Nodup) ∧
    (∀ fuel' s n,
      fetchModule transportFailWorld "M" none fuel' = RunResult.aborted s n →
      transportFailWorld.store n = false) :=
  c7_amended transportFailWorld "M" none 0 (initState "M")
    "documentation/M" [] (FetchOutcome.otherError "timed out")
    (by decide) (by decide) (by decide) (by decide)
    (by intro d hd; cases hd)

/-- C8: every stored file pairs the fetched document with the name obtained
by replacing each path separator of the topic path with an underscore and
appending `.json`; in the Widgets scenario exactly
`documentation_Widgets.json` and `documentation_Widgets_Gadget.json` are
stored, in that order. -/
theorem c8_stored_file_names (w : World) (module : String)
    (limit : Option Int) (fuel : Nat) :
    (∀ nd ∈ (fetchModule w module limit fuel).state.files,
      ∃ p, p ∈ (fetchModule w module limit fuel).state.attempted ∧
        lookupFetch w p = FetchOutcome.success nd.2 ∧
        nd.1 = pyReplaceSlash p ++ ".json") ∧
    (fetchModule widgetsWorld "Widgets" none 10).state.files.map Prod.fst =
      ["documentation_Widgets.json", "documentation_Widgets_Gadget.json"] := by
  refine ⟨?_, by decide⟩
  intro nd hnd
  exact (stateInv_run w module limit fuel).2.2.2.2 nd hnd

/-- C8, witness at the `Widgets/Gadget` file of the Widgets scenario. -/
theorem c8_stored_file_names_witness :
    (("documentation_Widgets_Gadget.json", Doc.mk []) ∈
      (fetchModule widgetsWorld "Widgets" none 10).state.files) ∧
    ∃ p, p ∈ (fetchModule widgetsWorld "Widgets" none 10).state.attempted ∧
      lookupFetch widgetsWorld p = FetchOutcome.success (Doc.mk []) ∧
      "documentation_Widgets_Gadget.json" = pyReplaceSlash p ++ ".json" :=
  ⟨by decide,
    (c8_stored_file_names widgetsWorld "Widgets" none 10).1
      ("documentation_Widgets_Gadget.json", Doc.mk []) (by decide)⟩

/-! ## Behavior of `copy_file` -/

theorem pyDropLast5_json (stem : String) :
    pyDropLast5 (stem ++ ".json") = stem := by
  show String.mk
    (((stem ++ ".json").data).take ((stem ++ ".json").data.length - 5)) = stem
  rw [String.data_append]
  have h5 : ".json".data.length = 5 := rfl
  rw [List.length_append, h5]
  have hlen : stem.data.length + 5 - 5 = stem.data.length := by omega
  rw [hlen, List.take_left]

theorem copy_file_exact {names : List String} {target : String}
    (h : target ∈ names) :
    copy_file (some names) target = (some target, none) := by
  simp only [copy_file]
  rw [if_pos h]

theorem copy_file_missing_dir (target : String) :
    copy_file none target = (none, some target) := rfl

theorem copy_file_no_candidates {names : List String} {target : String}
    (h : target ∉ names) (hc : syncCandidates names target = []) :
    copy_file (some names) target = (none, some target) := by
  simp only [copy_file]
  rw [if_neg h, hc]

theorem copy_file_fallback {names : List String} {target : String}
    {c : String} {cs : List String}
    (h : target ∉ names) (hc : syncCandidates names target = c :: cs) :
    ∃ ch, copy_file (some names) target = (some ch, none) ∧
      ch ∈ syncCandidates names target ∧
      ∀ other ∈ syncCandidates names target, ch.length ≤ other.length := by
  have hle_trans : ∀ a b d : String,
      decide (a.length ≤ b.length) → decide (b.length ≤ d.length) →
      decide (a.length ≤ d.length) := by
    intro a b d hab hbd
    simp only [decide_eq_true_eq] at hab hbd ⊢
    exact Nat.le_trans hab hbd
  have hle_total : ∀ a b : String,
      decide (a.length ≤ b.length) || decide (b.length ≤ a.length) := by
    intro a b
    rcases Nat.le_total a.length b.length with hab | hba
    · simp [hab]
    · simp [hba]
  have hperm : List.Perm
      ((c :: cs).mergeSort (fun a b => decide (a.length ≤ b.length)))
      (c :: cs) := List.mergeSort_perm (c :: cs) _
  obtain ⟨ch, t, hst⟩ : ∃ ch t,
      (c :: cs).mergeSort (fun a b => decide (a.length ≤ b.length)) =
        ch :: t := by
    cases hs : (c :: cs).mergeSort (fun a b => decide (a.length ≤ b.length)) with
    | nil =>
      exfalso
      have := hperm.length_eq
      rw [hs] at this
      cases this
    | cons a b => exact ⟨a, b, rfl⟩
  have hpw := List.sorted_mergeSort hle_trans hle_total (c :: cs)
  rw [hst] at hpw hperm
  refine ⟨ch, ?_, ?_, ?_⟩
  · simp only [copy_file]
    rw [if_neg h, hc]
    show (some (((c :: cs).mergeSort
      (fun a b => decide (a.length ≤ b.length))).headD c), none) =
      (some ch, none)
    rw [hst]
    rfl
  · rw [hc]
    exact hperm.mem_iff.1 (List.mem_cons_self ch t)
  · intro other hother
    rw [hc] at hother
    have hother' : other ∈ ch :: t := hperm.mem_iff.2 hother
    rcases List.mem_cons.1 hother' with rfl | hmem
    · exact Nat.le_refl _
    · have := (List.pairwise_cons.1 hpw).1 other hmem
      simpa using this

/-- C9: when the exact target name is absent, `copy_file` falls back to the
raw-directory names starting with the target's base name (the name without
its `.json` extension) and copies one of minimal length, returning it; with
no candidate (including a missing raw directory) nothing is copied and the
target is reported missing. -/
theorem c9_shortest_fallback (names : List String) (stem target : String)
    (ht : target = stem ++ ".json") :
    (target ∈ names → copy_file (some names) target = (some target, none)) ∧
    (target ∉ names → syncCandidates names target ≠ [] →
      ∃ ch, copy_file (some names) target = (some ch, none) ∧
        ch ∈ names ∧ pyStartsWith ch stem = true ∧
        ∀ other ∈ names, pyStartsWith other stem = true →
          ch.length ≤ other.length) ∧
    (target ∉ names → syncCandidates names target = [] →
      copy_file (some names) target = (none, some target)) ∧
    copy_file none target = (none, some target) := by
  have hbase : pyDropLast5 target = stem := ht ▸ pyDropLast5_json stem
  refine ⟨fun h => copy_file_exact h, ?_, fun h hc => copy_file_no_candidates h hc,
    copy_file_missing_dir target⟩
  intro h hne
  cases hcand : syncCandidates names target with
  | nil => exact absurd hcand hne
  | cons c cs =>
    obtain ⟨ch, hres, hmem, hmin⟩ := copy_file_fallback h hcand
    refine ⟨ch, hres, ?_, ?_, ?_⟩
    · exact (List.mem_filter.1 hmem).1
    · have := (List.mem_filter.1 hmem).2
      rwa [hbase] at this
    · intro other homem hosw
      exact hmin other (List.mem_filter.2 ⟨homem, by rwa [hbase]⟩)

/-- C9, witness: target `ab.json` absent, candidates sorted by length. -/
theorem c9_shortest_fallback_witness :
    "ab.json" = "ab" ++ ".json" ∧
    "ab.json" ∉ ["abcd.json", "abc.json"] ∧
    syncCandidates ["abcd.json", "abc.json"] "ab.json" ≠ [] ∧
    ∃ ch, copy_file (some ["abcd.json", "abc.json"]) "ab.json" =
        (some ch, none) ∧
      ch ∈ ["abcd.json", "abc.json"] ∧ pyStartsWith ch "ab" = true ∧
      ∀ other ∈ ["abcd.json", "abc.json"], pyStartsWith other "ab" = true →
        ch.length ≤ other.length :=
  ⟨by decide, by decide, by decide,
    (c9_shortest_fallback ["abcd.json", "abc.json"] "ab" "ab.json"
      (by decide)).2.1 (by decide) (by decide)⟩

/-- C10: `copy_file` always returns a pair with exactly one non-`None`
component: the copied name with no missing report, or no copied name with
the target reported missing. -/
theorem c10_exactly_one_component (rawDir : Option (List String))
    (target : String) :
    ((copy_file rawDir target).1.isSome = true ∧
      (copy_file rawDir target).2 = none) ∨
    ((copy_file rawDir target).1 = none ∧
      (copy_file rawDir target).2.isSome = true) := by
  cases rawDir with
  | none =>
    right
    rw [copy_file_missing_dir]
    exact ⟨rfl, rfl⟩
  | some names =>
    by_cases hmem : target ∈ names
    · left
      rw [copy_file_exact hmem]
      exact ⟨rfl, rfl⟩
    · cases hc : syncCandidates names target with
      | nil =>
        right
        rw [copy_file_no_candidates hmem hc]
        exact ⟨rfl, rfl⟩
      | cons c cs =>
        obtain ⟨ch, hch, _⟩ := copy_file_fallback hmem hc
        left
        rw [hch]
        exact ⟨rfl, rfl⟩

end RAGMLCore
